import Mathlib

/-!
Shallow embedding of the AiDivaLogger synchronization core.

The definitions below are translated from the TypeScript source:
* `src/apex/client.ts` (`ApexClient.hasUsefulData`, `ApexClient.extractDatePart`,
  `ApexClient.getDataCoverage`),
* `src/index.ts` (`parseApexDate`, `isFileLimitError`, `queryNewestInChunks`,
  `queryOldestInChunks`, `getOldestDbTime`, `checkDatabaseFreshness`, `writeBatched`),
* `src/influx/mapper.ts` (`parseApexDate`, `mapRecordToPoints`, `mapAllRecordsToPoints`).

Modelling conventions:
* JavaScript floating point numbers that flow through probe readings are modelled by
  `JSNumber` (a finite rational, NaN, or a signed infinity); the claims under scrutiny
  only depend on finiteness/NaN classification, never on float rounding.
* Fallible computations (date parsing that would yield an `Invalid Date`, store queries
  that may reject) are modelled with `Option`/`Except`.
* The process-local timezone of the Node process is modelled as a fixed offset in
  minutes east of UTC, passed explicitly to every function whose JavaScript original
  consults the local timezone (`new Date(y, m, d, …)` does; `Date.UTC` does not).
* Effects (HTTP fetches, store queries/writes) are modelled by oracle values describing
  the outcome of each call site, threaded in explicitly.
-/

namespace AiDiva

/-- Model of a JavaScript number as it appears in probe readings: either a finite value
(kept as an exact rational) or one of the non-finite values NaN, Infinity, -Infinity. -/
inductive JSNumber where
  | finite (q : ℚ)
  | nan
  | posInf
  | negInf
deriving DecidableEq, Repr

/-- Model of JavaScript `Number.isFinite`: true exactly on finite numbers. -/
def isFiniteNumber : JSNumber → Bool
  | .finite _ => true
  | _ => false

/-- Model of JavaScript `isNaN` on a `JSNumber` (used by the mapper's probe filter). -/
def isNaNNumber : JSNumber → Bool
  | .nan => true
  | _ => false

/-- One probe sub-reading of a datalog record (`ApexProbe` after `transformDatalog`):
a name, a type tag and a numeric value parsed with `parseFloat`. -/
structure ApexProbe where
  name : String
  type : String
  value : JSNumber
deriving DecidableEq, Repr

/-- One datalog record (`ApexRecord`): a source-native date string
in the format MM/DD/YYYY HH:MM:SS and a list of probe sub-readings. -/
structure ApexRecord where
  date : String
  probes : List ApexProbe
deriving DecidableEq, Repr

/-- Datalog metadata plus records (`ApexDatalog` after `transformDatalog`). -/
structure ApexDatalog where
  software : String
  hardware : String
  hostname : String
  serial : String
  timezone : ℚ
  records : List ApexRecord
deriving DecidableEq, Repr

/-- From `ApexClient.hasUsefulData` (src/apex/client.ts): a record has useful data iff
some probe has a finite numeric value (`record.probes.some(p => Number.isFinite(p.value))`). -/
def hasUsefulData (record : ApexRecord) : Bool :=
  record.probes.any fun probe => isFiniteNumber probe.value

/-- From `ApexClient.extractDatePart` (src/apex/client.ts): the calendar-date part of a
date string is its first 10 characters (`dateStr.substring(0, 10)`). -/
def extractDatePart (dateStr : String) : String :=
  dateStr.take 10

/-! ### Date parsing

Both `parseApexDate` functions in the source split the string "MM/DD/YYYY HH:MM:SS"
on a space, the date on slashes and the time on colons, and convert each component
with `Number`.  We model the split with a structural character-level splitter (the
library `String.splitOn` is defined by well-founded recursion and does not reduce
inside `decide`), and `Number` on a component by an all-digits parse; a component the
JavaScript code would turn into `NaN` (making the `Date` invalid) yields `none`. -/

/-- Split a character list at every occurrence of the separator character,
modelling the JavaScript `String.prototype.split` with a one-character separator. -/
def splitChars (sep : Char) : List Char → List (List Char)
  | [] => [[]]
  | c :: rest =>
    let groups := splitChars sep rest
    if c = sep then
      [] :: groups
    else
      match groups with
      | [] => [[c]]
      | g :: gs => (c :: g) :: gs

/-- Split a string at every occurrence of a separator character. -/
def splitString (sep : Char) (s : String) : List String :=
  (splitChars sep s.data).map List.asString

/-- Parse a nonempty all-digits character list as a natural number; any other shape is
`none` (modelling a component that JavaScript `Number` would turn into `NaN`). -/
def parseDigits : List Char → Option ℕ
  | [] => none
  | cs =>
    cs.foldl
      (fun acc c =>
        match acc with
        | none => none
        | some n => if c.isDigit then some (n * 10 + (c.toNat - 48)) else none)
      (some 0)

/-- Parse one string component of a date with `parseDigits`. -/
def parseNumber (s : String) : Option ℕ :=
  parseDigits s.data

/-- Extract the six components (month, day, year, hours, minutes, seconds) of an Apex
date string "MM/DD/YYYY HH:MM:SS", as both source `parseApexDate` functions do:
split on the space, split the date part on "/", the time part on ":". -/
def parseDateFields (dateStr : String) : Option (ℕ × ℕ × ℕ × ℕ × ℕ × ℕ) :=
  match splitString ' ' dateStr with
  | [datePart, timePart] =>
    match splitString '/' datePart, splitString ':' timePart with
    | [m, d, y], [hh, mm, ss] =>
      match parseNumber m, parseNumber d, parseNumber y,
            parseNumber hh, parseNumber mm, parseNumber ss with
      | some month, some day, some year, some hours, some minutes, some seconds =>
        some (month, day, year, hours, minutes, seconds)
      | _, _, _, _, _, _ => none
    | _, _ => none
  | _ => none

/-- Number of days from the Unix epoch (1970-01-01) to the given proleptic Gregorian
civil date, the arithmetic performed by the JavaScript `Date` machinery. -/
def daysFromCivil (y m d : ℤ) : ℤ :=
  let yAdj := y - (if m ≤ 2 then 1 else 0)
  let era := Int.fdiv yAdj 400
  let yoe := yAdj - era * 400
  let doy := Int.fdiv (153 * ((m + 9) % 12) + 2) 5 + d - 1
  let doe := yoe * 365 + Int.fdiv yoe 4 - Int.fdiv yoe 100 + doy
  era * 146097 + doe - 719468

/-- Milliseconds from the Unix epoch for the given UTC wall-clock fields
(what `Date.UTC(year, month - 1, day, hours, minutes, seconds)` computes). -/
def utcMillisOfFields (year month day hours minutes seconds : ℤ) : ℤ :=
  daysFromCivil year month day * 86400000
    + hours * 3600000 + minutes * 60000 + seconds * 1000

/-- From `parseApexDate` in src/index.ts: the fields are handed to
`new Date(year, month - 1, day, hours, minutes, seconds)`, which interprets the
wall-clock fields in the process-local timezone.  The local timezone is modelled as a
fixed offset `localOffsetMinutes` east of UTC; the produced instant (in epoch
milliseconds) is the UTC interpretation shifted by that offset. -/
def parseApexDateIndex (localOffsetMinutes : ℤ) (dateStr : String) : Option ℤ :=
  (parseDateFields dateStr).map fun fields =>
    match fields with
    | (month, day, year, hours, minutes, seconds) =>
      utcMillisOfFields year month day hours minutes seconds
        - localOffsetMinutes * 60000

/-- From `parseApexDate` in src/influx/mapper.ts: the fields go through
`Date.UTC(year, month - 1, day, hours, minutes, seconds)` and the result is shifted by
`timezoneOffset * 60 * 60 * 1000` (the per-controller timezone carried in the datalog).
The process-local offset is accepted as an argument only to show that, unlike the
index.ts variant, this computation never consults it. -/
def parseApexDateMapper (dateStr : String) (timezoneOffset : ℚ)
    (localOffsetMinutes : ℤ) : Option ℚ :=
  (parseDateFields dateStr).map fun fields =>
    match fields with
    | (month, day, year, hours, minutes, seconds) =>
      (utcMillisOfFields year month day hours minutes seconds : ℚ)
        - timezoneOffset * 60 * 60 * 1000

/-! ### Coverage scan (`ApexClient.getDataCoverage`)

The scan walks the last 60 days in 3-day chunks and fetches each chunk from the
controller.  We embed one scan pass as a fold over the list of per-chunk fetch
outcomes: `none` models a chunk whose fetch threw (the source catches, logs and
continues), `some records` a successful fetch of that chunk's record list. -/

/-- Result shape of the coverage scan (`DataCoverageResult` in src/apex/types.ts). -/
structure DataCoverageResult where
  totalRecords : ℕ
  usefulRecords : ℕ
  oldestUsefulRecordDate : String
  newestUsefulRecordDate : String
  totalDays : ℕ
  daysWithData : ℕ
  coveragePercent : ℚ
deriving DecidableEq, Repr

/-- The constant `totalDaysToCheck = 60` of `getDataCoverage`. -/
def totalDaysToCheck : ℕ := 60

/-- JavaScript `Math.round`: round half away from zero toward positive infinity. -/
def jsRound (q : ℚ) : ℤ :=
  ⌊q + 1 / 2⌋

/-- The mutable locals of `getDataCoverage` while the chunk loop runs. -/
structure ScanState where
  oldestUsefulDate : Option String
  newestUsefulDate : Option String
  usefulRecordCount : ℕ
  totalRecordsFetched : ℕ
  uniqueDatesWithData : Finset String
deriving DecidableEq

/-- Initial scan state: no dates seen, counters at zero, empty date set. -/
def initialScanState : ScanState :=
  { oldestUsefulDate := none
    newestUsefulDate := none
    usefulRecordCount := 0
    totalRecordsFetched := 0
    uniqueDatesWithData := ∅ }

/-- One iteration of the chunk loop in `getDataCoverage`.  A failed fetch (`none`) only
logs and leaves every counter unchanged.  A successful fetch counts the chunk's records,
filters the useful ones and, when there are any, bumps the useful counter, initialises
the oldest date on first use, overwrites the newest date with the chunk's last useful
record and adds every useful record's calendar-date part to the distinct-date set. -/
def processCoverageChunk (st : ScanState) (fetched : Option (List ApexRecord)) :
    ScanState :=
  match fetched with
  | none => st
  | some records =>
    let usefulInChunk := records.filter hasUsefulData
    let st₁ := { st with totalRecordsFetched := st.totalRecordsFetched + records.length }
    if usefulInChunk.isEmpty then
      st₁
    else
      { st₁ with
        usefulRecordCount := st₁.usefulRecordCount + usefulInChunk.length
        oldestUsefulDate :=
          st₁.oldestUsefulDate.orElse fun _ => (usefulInChunk.head?).map ApexRecord.date
        newestUsefulDate := (usefulInChunk.getLast?).map ApexRecord.date
        uniqueDatesWithData :=
          st₁.uniqueDatesWithData ∪
            (usefulInChunk.map fun record => extractDatePart record.date).toFinset }

/-- The chunk loop of `getDataCoverage` as a fold of `processCoverageChunk` over the
per-chunk fetch outcomes, from the initial state. -/
def scanPass (chunkFetches : List (Option (List ApexRecord))) : ScanState :=
  chunkFetches.foldl processCoverageChunk initialScanState

/-- The raw coverage percentage of the scan (`(daysWithData / totalDaysToCheck) * 100`,
guarded by the source's `totalDaysToCheck > 0` test), before rounding. -/
def rawCoveragePercent (daysWithData : ℕ) : ℚ :=
  if 0 < totalDaysToCheck then (daysWithData : ℚ) / (totalDaysToCheck : ℚ) * 100 else 0

/-- The whole coverage scan (`ApexClient.getDataCoverage`), as a function of the
per-chunk fetch outcomes.  A scan that found no useful record returns the empty result
with zeroed coverage and empty date strings; otherwise the tracked metadata is
assembled, with the coverage percentage rounded to two decimals through
`Math.round(x * 100) / 100`. -/
def getDataCoverage (chunkFetches : List (Option (List ApexRecord))) :
    DataCoverageResult :=
  if (scanPass chunkFetches).usefulRecordCount = 0 then
    { totalRecords := (scanPass chunkFetches).totalRecordsFetched
      usefulRecords := 0
      oldestUsefulRecordDate := ""
      newestUsefulRecordDate := ""
      totalDays := totalDaysToCheck
      daysWithData := 0
      coveragePercent := 0 }
  else
    { totalRecords := (scanPass chunkFetches).totalRecordsFetched
      usefulRecords := (scanPass chunkFetches).usefulRecordCount
      oldestUsefulRecordDate := (scanPass chunkFetches).oldestUsefulDate.getD ""
      newestUsefulRecordDate := (scanPass chunkFetches).newestUsefulDate.getD ""
      totalDays := totalDaysToCheck
      daysWithData := (scanPass chunkFetches).uniqueDatesWithData.card
      coveragePercent :=
        (jsRound (rawCoveragePercent ((scanPass chunkFetches).uniqueDatesWithData.card)
          * 100) : ℚ) / 100 }

/-- All records of the successfully fetched chunks, in visit order (oldest chunk first,
records in the order the source returned them). -/
def flatRecords (chunkFetches : List (Option (List ApexRecord))) : List ApexRecord :=
  (chunkFetches.filterMap id).flatten

/-- The useful records among `flatRecords`, in the same order. -/
def flatUseful (chunkFetches : List (Option (List ApexRecord))) : List ApexRecord :=
  (flatRecords chunkFetches).filter hasUsefulData

/-! ### Reconciler chunk sink (`checkDatabaseFreshness`, src/index.ts lines 208-264) -/

/-- From src/index.ts line 210: the cutoff in epoch milliseconds, computed once before
the scan: `config.forceFullSync ? 0 : (newestDbTimeBefore?.getTime() ?? 0)`. -/
def cutoffTimeMs (forceFullSync : Bool) (newestDbTimeBefore : Option ℤ) : ℤ :=
  if forceFullSync then 0 else newestDbTimeBefore.getD 0

/-- The sink's filter predicate (src/index.ts lines 217-221): parse the record date with
the index.ts `parseApexDate` and keep the record iff its time is strictly greater than
the cutoff.  A date the parse rejects compares as NaN in JavaScript, and `NaN > x` is
false, so such a record is dropped. -/
def recordPassesCutoff (localOffsetMinutes cutoff : ℤ) (record : ApexRecord) : Bool :=
  match parseApexDateIndex localOffsetMinutes record.date with
  | some t => decide (cutoff < t)
  | none => false

/-- From src/index.ts lines 216-222: the records of one chunk that survive the cutoff.
When a pre-scan newest-DB time exists and force-full-sync is off, the chunk is filtered
against the fixed cutoff; otherwise every record of the chunk passes. -/
def recordsToProcess (forceFullSync : Bool) (newestDbTimeBefore : Option ℤ)
    (localOffsetMinutes : ℤ) (records : List ApexRecord) : List ApexRecord :=
  if newestDbTimeBefore.isSome && !forceFullSync then
    records.filter
      (recordPassesCutoff localOffsetMinutes (cutoffTimeMs forceFullSync newestDbTimeBefore))
  else
    records

/-- The whole pass forwards each chunk through `recordsToProcess` with the one cutoff
captured before the scan started; the cutoff argument is fixed across all chunks,
mirroring the single `const cutoffTimeMs` of the source. -/
def reconcilerPassForwarded (forceFullSync : Bool) (newestDbTimeBefore : Option ℤ)
    (localOffsetMinutes : ℤ) (chunks : List (List ApexRecord)) : List (List ApexRecord) :=
  chunks.map (recordsToProcess forceFullSync newestDbTimeBefore localOffsetMinutes)

/-- Sorting key used by the sink's comparator (src/index.ts lines 230-232):
`parseApexDate(r.date).getTime()`, defaulted for an unparseable date. -/
def recordSortKey (localOffsetMinutes : ℤ) (record : ApexRecord) : ℤ :=
  (parseApexDateIndex localOffsetMinutes record.date).getD 0

/-- From src/index.ts lines 229-232: sort the surviving records ascending by parsed
timestamp before mapping them to points. -/
def sortRecordsByDate (localOffsetMinutes : ℤ) (records : List ApexRecord) :
    List ApexRecord :=
  records.mergeSort fun a b =>
    decide (recordSortKey localOffsetMinutes a ≤ recordSortKey localOffsetMinutes b)

/-- One InfluxDB probe point as built by the mapper: measurement `apex_probe`, tags
host/name/probe type, a float field and the record timestamp (the mapper parse with
the controller timezone; `none` models an invalid-date timestamp). -/
structure ProbePoint where
  host : String
  name : String
  probeType : String
  value : JSNumber
  timestamp : Option ℚ
deriving DecidableEq, Repr

/-- From `mapRecordToPoints` (src/influx/mapper.ts): parse the record date once with the
controller timezone, drop probes whose value is NaN, and emit one point per remaining
probe carrying that shared timestamp. -/
def mapRecordToPoints (hostname : String) (timezoneOffset : ℚ) (localOffsetMinutes : ℤ)
    (record : ApexRecord) : List ProbePoint :=
  let timestamp := parseApexDateMapper record.date timezoneOffset localOffsetMinutes
  (record.probes.filter fun probe => !isNaNNumber probe.value).map fun probe =>
    { host := hostname
      name := probe.name
      probeType := probe.type
      value := probe.value
      timestamp := timestamp }

/-- From `mapAllRecordsToPoints` (src/influx/mapper.ts): flatten the per-record points
of every record, in record order. -/
def mapAllRecordsToPoints (hostname : String) (timezoneOffset : ℚ)
    (localOffsetMinutes : ℤ) (records : List ApexRecord) : List ProbePoint :=
  records.flatMap (mapRecordToPoints hostname timezoneOffset localOffsetMinutes)

/-- The write batch size used by both the sink loop and `writeBatched` (500). -/
def writeBatchSize : ℕ := 500

/-- The batching loop shared by the sink (src/index.ts lines 246-257) and
`writeBatched` (lines 348-360): take consecutive slices
`[i, min(i + batchSize, length))` of the point list, in order.  The JavaScript loop
advances `i` by `batchSize` and terminates only for a positive batch size; the
degenerate `batchSize = 0` (excluded by every caller, which passes 500) is mapped to
an empty batch list. -/
def batchesOf (batchSize : ℕ) (points : List ProbePoint) : List (List ProbePoint) :=
  if h : batchSize = 0 ∨ points = [] then
    []
  else
    points.take batchSize :: batchesOf batchSize (points.drop batchSize)
termination_by points.length
decreasing_by
  rcases points with _ | ⟨p, ps⟩
  · exact absurd rfl (fun hh => h (Or.inr hh))
  · simp only [List.length_drop, List.length_cons]
    omega

/-- From `writeBatched` (src/index.ts lines 346-362): write the points in batches and
return the pair of (the sequence of batches passed to `influx.writePoints`, in call
order) and the returned running total `totalWritten`. -/
def writeBatched (points : List ProbePoint) (batchSize : ℕ) :
    List (List ProbePoint) × ℕ :=
  let batches := batchesOf batchSize points
  (batches, (batches.map List.length).sum)

/-- Index of the first point of record `i` inside the flattened point list of the
sorted records: the total number of points produced by the records before it. -/
def pointsFlatStart (hostname : String) (timezoneOffset : ℚ) (localOffsetMinutes : ℤ)
    (records : List ApexRecord) (i : ℕ) : ℕ :=
  ((records.take i).map fun record =>
    (mapRecordToPoints hostname timezoneOffset localOffsetMinutes record).length).sum

/-! ### Chunked query helper (`queryNewestInChunks` / `queryOldestInChunks`) -/

/-- Substring test on strings, modelling `String.prototype.includes`. -/
def containsText (s pat : String) : Bool :=
  decide (pat.data <:+: s.data)

/-- From `isFileLimitError` (src/index.ts lines 46-55): an error (its message string)
matches the InfluxDB 3 Core file-limit signature iff the message includes
"exceeding the file limit", or includes both "would scan" and "Parquet files". -/
def isFileLimitError (message : String) : Bool :=
  containsText message "exceeding the file limit" ||
    (containsText message "would scan" && containsText message "Parquet files")

/-- One row returned by a store time query (the code selects only `time`). -/
structure InfluxRow where
  time : String
deriving DecidableEq, Repr

/-- Outcome oracle for the store: maps the `(startDays, endDays)` bounds of one chunk
query to the result rows the query would yield, or the message of the error it would
throw.  Per the query's ORDER BY ... LIMIT 1 text, a non-empty result's first row is
the extremal-timestamp row of that chunk. -/
def ChunkStore : Type :=
  ℕ → ℕ → Except String (List InfluxRow)

/-- Loop body of `queryNewestInChunks` (src/index.ts lines 69-98), iterating
`startDays = 0, chunkDays, 2·chunkDays, …` while `startDays < maxLookback`.  Each
chunk queries `(now - endDays, now - startDays]` with `endDays =
min(startDays + chunkDays, maxLookback)`; the first non-empty result is returned, an
empty result moves to the next chunk, a file-limit error logs a warning and moves on,
and any other error propagates.  The JavaScript loop advances by `chunkDays` and so
terminates only for a positive chunk size (the configuration supplies positive chunk
sizes); the degenerate `chunkDays = 0` is mapped to the no-data result. -/
def queryNewestGo (store : ChunkStore) (chunkDays maxLookback startDays : ℕ) :
    Except String (Option InfluxRow) :=
  if h : startDays < maxLookback ∧ 0 < chunkDays then
    match store startDays (min (startDays + chunkDays) maxLookback) with
    | .ok (row :: _) => .ok (some row)
    | .ok [] => queryNewestGo store chunkDays maxLookback (startDays + chunkDays)
    | .error e =>
      if isFileLimitError e then
        queryNewestGo store chunkDays maxLookback (startDays + chunkDays)
      else
        .error e
  else
    .ok none
termination_by maxLookback - startDays
decreasing_by
  all_goals omega

/-- From `queryNewestInChunks` (src/index.ts lines 60-102). -/
def queryNewestInChunks (store : ChunkStore) (chunkDays maxLookback : ℕ) :
    Except String (Option InfluxRow) :=
  queryNewestGo store chunkDays maxLookback 0

/-- Loop body of `queryOldestInChunks` (src/index.ts lines 116-145), iterating
`endDays = maxLookback, maxLookback - chunkDays, …` while `endDays > 0`, with
`startDays = max(endDays - chunkDays, 0)` (natural subtraction).  Same skip/propagate
structure as the newest search. -/
def queryOldestGo (store : ChunkStore) (chunkDays endDays : ℕ) :
    Except String (Option InfluxRow) :=
  if h : 0 < endDays ∧ 0 < chunkDays then
    match store (endDays - chunkDays) endDays with
    | .ok (row :: _) => .ok (some row)
    | .ok [] => queryOldestGo store chunkDays (endDays - chunkDays)
    | .error e =>
      if isFileLimitError e then
        queryOldestGo store chunkDays (endDays - chunkDays)
      else
        .error e
  else
    .ok none
termination_by endDays
decreasing_by
  all_goals omega

/-- From `queryOldestInChunks` (src/index.ts lines 107-149). -/
def queryOldestInChunks (store : ChunkStore) (chunkDays maxLookback : ℕ) :
    Except String (Option InfluxRow) :=
  queryOldestGo store chunkDays maxLookback

/-- The `(startDays, endDays)` bounds visited by the newest search, in iteration
order, starting at `startDays`. -/
def newestChunkRangesFrom (chunkDays maxLookback startDays : ℕ) : List (ℕ × ℕ) :=
  if h : startDays < maxLookback ∧ 0 < chunkDays then
    (startDays, min (startDays + chunkDays) maxLookback) ::
      newestChunkRangesFrom chunkDays maxLookback (startDays + chunkDays)
  else
    []
termination_by maxLookback - startDays
decreasing_by
  omega

/-- The `(startDays, endDays)` bounds visited by the newest search, in iteration order. -/
def newestChunkRanges (chunkDays maxLookback : ℕ) : List (ℕ × ℕ) :=
  newestChunkRangesFrom chunkDays maxLookback 0

/-- The `(startDays, endDays)` bounds visited by the oldest search, in iteration
order, with `endDays` starting at the lookback bound. -/
def oldestChunkRangesFrom (chunkDays endDays : ℕ) : List (ℕ × ℕ) :=
  if h : 0 < endDays ∧ 0 < chunkDays then
    (endDays - chunkDays, endDays) :: oldestChunkRangesFrom chunkDays (endDays - chunkDays)
  else
    []
termination_by endDays
decreasing_by
  omega

/-- The `(startDays, endDays)` bounds visited by the oldest search, in iteration order. -/
def oldestChunkRanges (chunkDays maxLookback : ℕ) : List (ℕ × ℕ) :=
  oldestChunkRangesFrom chunkDays maxLookback

/-- A chunk the helper skips without concluding: its query returned no rows, or it
failed with the store's file-limit signature (logged and skipped). -/
def chunkSkipped (store : ChunkStore) (range : ℕ × ℕ) : Prop :=
  store range.1 range.2 = .ok [] ∨
    ∃ e, store range.1 range.2 = .error e ∧ isFileLimitError e = true

/-- Characterization of one chunked search over its visited ranges:
a returned row is the head row of the first chunk, in iteration order, whose query
yielded rows, every earlier chunk having been empty or scan-limited; the no-data
result occurs exactly when every chunk is empty or scan-limited; and an error result
is the first non-file-limit error raised, every earlier chunk having been skipped. -/
def chunkedSearchSpec (store : ChunkStore) (ranges : List (ℕ × ℕ))
    (result : Except String (Option InfluxRow)) : Prop :=
  (∀ row, result = .ok (some row) →
    ∃ pre range rest post,
      ranges = pre ++ range :: post ∧
      (∀ r ∈ pre, chunkSkipped store r) ∧
      store range.1 range.2 = .ok (row :: rest)) ∧
  (result = .ok none ↔ ∀ r ∈ ranges, chunkSkipped store r) ∧
  (∀ e, result = .error e →
    isFileLimitError e = false ∧
    ∃ pre range post,
      ranges = pre ++ range :: post ∧
      (∀ r ∈ pre, chunkSkipped store r) ∧
      store range.1 range.2 = .error e)

/-! ### Freshness reconciler (`checkDatabaseFreshness`, src/index.ts lines 175-342) -/

/-- Effect oracle for one reconciliation pass: the outcome of each I/O step of
`checkDatabaseFreshness`, plus the configuration it reads.  A per-chunk `none` in
`coverageChunks` models a chunk fetch failure, caught inside `getDataCoverage`; write
errors inside the sink are likewise caught per chunk there and never escape. -/
structure FreshnessEnv where
  datalogResult : Except String ApexDatalog
  preCheck : Except String (Option InfluxRow)
  coverageChunks : List (Option (List ApexRecord))
  postCheck : Except String (Option InfluxRow)
  oldestCheck : Except String (Option InfluxRow)
  forceFullSync : Bool
  localOffsetMinutes : ℤ

/-- What a finished reconciliation pass reported. -/
inductive FreshnessOutcome where
  | noRecords
  | statusReport (firstRun : Bool)
  | fileLimitGuidance
  | errorLogged (message : String)
deriving DecidableEq, Repr

/-- From `getOldestDbTime` (src/index.ts lines 154-172): run the chunked oldest query
and swallow any error into the no-data answer. -/
def getOldestDbTime (result : Except String (Option InfluxRow)) : Option InfluxRow :=
  match result with
  | .ok row => row
  | .error _ => none

/-- Body of `checkDatabaseFreshness` (the part inside its `try`): fetch the datalog,
return the no-records report when it is empty, capture the pre-scan newest time, run
the coverage scan with the write-back sink, re-query newest and oldest, and report
either first-run status (store still empty) or the computed status block.  Any error a
step propagates aborts the body with that error. -/
def checkFreshnessBody (env : FreshnessEnv) : Except String FreshnessOutcome :=
  match env.datalogResult with
  | .error e => .error e
  | .ok datalog =>
    match datalog.records.getLast? with
    | none => .ok .noRecords
    | some _latestRecord =>
      match env.preCheck with
      | .error e => .error e
      | .ok _preCheckResult =>
        match getDataCoverage env.coverageChunks, env.postCheck with
        | _coverage, .error e => .error e
        | _coverage, .ok newestResult =>
          match getOldestDbTime env.oldestCheck, newestResult with
          | _oldestDbTime, none => .ok (.statusReport true)
          | _oldestDbTime, some _ => .ok (.statusReport false)

/-- From `checkDatabaseFreshness` (src/index.ts lines 175-342): the body is wrapped in
a catch that converts a file-limit error into the remediation-guidance report and any
other error into the logged-and-swallowed report; the routine itself never rejects. -/
def checkDatabaseFreshness (env : FreshnessEnv) : Except String FreshnessOutcome :=
  match checkFreshnessBody env with
  | .ok outcome => .ok outcome
  | .error e =>
    if isFileLimitError e then
      .ok .fileLimitGuidance
    else
      .ok (.errorLogged e)

/-! ### Helper instances and lemmas -/

/-- Decidable equality on `Except`, so that concrete helper results can be evaluated. -/
instance {ε α : Type} [DecidableEq ε] [DecidableEq α] : DecidableEq (Except ε α) := fun a b =>
  match a, b with
  | .ok x, .ok y =>
    if h : x = y then .isTrue (by rw [h]) else .isFalse (fun hh => h (Except.ok.inj hh))
  | .ok _, .error _ => .isFalse (fun hh => Except.noConfusion hh)
  | .error _, .ok _ => .isFalse (fun hh => Except.noConfusion hh)
  | .error x, .error y =>
    if h : x = y then .isTrue (by rw [h]) else .isFalse (fun hh => h (Except.error.inj hh))

/-! ### C3: useful-record classification -/

/-- C3.  A record is classified useful iff at least one of its probe sub-readings has a
finite value; NaN and the two infinities are never finite, so they never make a record
useful on their own, while a single finite sub-reading suffices regardless of the other
sub-readings of the record. -/
theorem hasUsefulData_iff_some_finite :
    (∀ record : ApexRecord,
      hasUsefulData record = true ↔
        ∃ probe ∈ record.probes, isFiniteNumber probe.value = true) ∧
    isFiniteNumber JSNumber.nan = false ∧
    isFiniteNumber JSNumber.posInf = false ∧
    isFiniteNumber JSNumber.negInf = false ∧
    (∀ q : ℚ, isFiniteNumber (JSNumber.finite q) = true) := by
  refine ⟨fun record => ?_, rfl, rfl, rfl, fun q => rfl⟩
  simp [hasUsefulData, List.any_eq_true]

/-! ### C1: cutoff stability -/

/-- C1.  In a pass whose cutoff `T` was captured from the store before the scan and
with force-full-sync off, every record forwarded by the sink parses to a timestamp
strictly greater than `T`; a record whose parsed timestamp is at most `T` is never
forwarded; and the pass filters every chunk with the one captured cutoff (the cutoff
argument threaded to every chunk is the same fixed `T`, mirroring the single
`const cutoffTimeMs` of the source, never a refreshed value). -/
theorem cutoff_stability (T localOffset : ℤ) (chunks : List (List ApexRecord)) :
    (∀ chunk ∈ reconcilerPassForwarded false (some T) localOffset chunks,
      ∀ record ∈ chunk,
        ∃ t, parseApexDateIndex localOffset record.date = some t ∧ T < t) ∧
    (∀ chunk ∈ chunks, ∀ record ∈ chunk, ∀ t,
      parseApexDateIndex localOffset record.date = some t → t ≤ T →
        record ∉ recordsToProcess false (some T) localOffset chunk) ∧
    reconcilerPassForwarded false (some T) localOffset chunks =
      chunks.map (recordsToProcess false (some T) localOffset) := by
  have hpass : ∀ record : ApexRecord,
      recordPassesCutoff localOffset (cutoffTimeMs false (some T)) record = true →
      ∃ t, parseApexDateIndex localOffset record.date = some t ∧ T < t := by
    intro record h
    unfold recordPassesCutoff at h
    cases hp : parseApexDateIndex localOffset record.date with
    | none => rw [hp] at h; exact absurd h (by simp)
    | some t =>
      rw [hp] at h
      refine ⟨t, rfl, ?_⟩
      have : cutoffTimeMs false (some T) < t := of_decide_eq_true h
      simpa [cutoffTimeMs] using this
  refine ⟨?_, ?_, rfl⟩
  · intro chunk hc record hr
    unfold reconcilerPassForwarded at hc
    rcases List.mem_map.mp hc with ⟨orig, _, rfl⟩
    unfold recordsToProcess at hr
    simp only [Option.isSome_some, Bool.not_false, Bool.and_self, if_true] at hr
    exact hpass record (List.mem_filter.mp hr).2
  · intro chunk _ record _ t hp hle hmem
    unfold recordsToProcess at hmem
    simp only [Option.isSome_some, Bool.not_false, Bool.and_self, if_true] at hmem
    rcases hpass record (List.mem_filter.mp hmem).2 with ⟨u, hu, hTu⟩
    rw [hp] at hu
    cases Option.some.inj hu
    exact absurd hle (not_le.mpr hTu)

/-- Concrete record used by several witnesses: a valid date, one finite probe. -/
def witnessRecord : ApexRecord :=
  { date := "01/15/2026 12:00:00"
    probes := [{ name := "Temp", type := "Temp", value := JSNumber.finite 78 }] }

/-- Witness for C1: with cutoff 0 and local offset 0, the concrete record is forwarded
and indeed parses to a timestamp strictly greater than the cutoff. -/
theorem cutoff_stability_witness :
    ∃ t, parseApexDateIndex 0 witnessRecord.date = some t ∧ (0 : ℤ) < t :=
  (cutoff_stability 0 0 [[witnessRecord]]).1
    (recordsToProcess false (some 0) 0 [witnessRecord])
    (by decide)
    witnessRecord
    (by decide)

/-! ### C4: timezone handling of the two date parses -/

/-- C4 counterexample.  The claim says every record-timestamp parse used by the core —
including the one backing the reconciler's cutoff comparison — is independent of the
process-local timezone.  The index.ts `parseApexDate`, which the cutoff comparison
uses, takes no controller offset and interprets the fields in the process-local
timezone: parsing the same date string under local offset 0 (UTC) and under local
offset -480 minutes (UTC-8) yields different instants, and with the cutoff
1768478400000 ms the same record is dropped under the first local timezone but
forwarded under the second. -/
theorem parseApexDateIndex_depends_on_local_timezone :
    parseApexDateIndex 0 "01/15/2026 12:00:00" ≠
      parseApexDateIndex (-480) "01/15/2026 12:00:00" ∧
    recordPassesCutoff 0 1768478400000 witnessRecord = false ∧
    recordPassesCutoff (-480) 1768478400000 witnessRecord = true := by
  refine ⟨?_, by decide, by decide⟩
  decide

/-- C4 as amended.  The mapper's `parseApexDate` derives Point timestamps from the
per-controller timezone offset carried with the datalog and never consults the
process-local timezone, so every Point timestamp is independent of the local timezone;
the index.ts `parseApexDate` used for the reconciler's cutoff comparison, in contrast,
is local-timezone-dependent (see the counterexample). -/
theorem mapper_parse_uses_controller_offset_only :
    (∀ (dateStr : String) (tz : ℚ) (o₁ o₂ : ℤ),
      parseApexDateMapper dateStr tz o₁ = parseApexDateMapper dateStr tz o₂) ∧
    (∀ (host : String) (tz : ℚ) (o₁ o₂ : ℤ) (records : List ApexRecord),
      mapAllRecordsToPoints host tz o₁ records = mapAllRecordsToPoints host tz o₂ records) :=
  ⟨fun _ _ _ _ => rfl, fun _ _ _ _ _ => rfl⟩

/-! ### C10: batching correctness of `writeBatched` -/

/-- Helper: `batchesOf` with a positive batch size flattens back to the input list. -/
theorem batchesOf_flatten (batchSize : ℕ) (points : List ProbePoint) (h : 0 < batchSize) :
    (batchesOf batchSize points).flatten = points := by
  refine batchesOf.induct batchSize
    (fun pts => (batchesOf batchSize pts).flatten = pts) ?_ ?_ points
  · intro pts hcase
    rw [batchesOf]
    rcases hcase with hbs | hpts
    · omega
    · simp [hpts]
  · intro pts hcase ih
    rw [batchesOf]
    simp only [hcase, dite_false]
    rw [List.flatten_cons, ih, List.take_append_drop]

/-- Helper: every batch produced by `batchesOf` has at most `batchSize` elements. -/
theorem batchesOf_length_le (batchSize : ℕ) (points : List ProbePoint) :
    ∀ batch ∈ batchesOf batchSize points, batch.length ≤ batchSize := by
  refine batchesOf.induct batchSize
    (fun pts => ∀ batch ∈ batchesOf batchSize pts, batch.length ≤ batchSize) ?_ ?_ points
  · intro pts hcase
    rw [batchesOf]
    simp [hcase]
  · intro pts hcase ih
    rw [batchesOf]
    simp only [hcase, dite_false]
    intro batch hbatch
    rcases List.mem_cons.mp hbatch with hhead | htail
    · subst hhead
      simp only [List.length_take]
      exact Nat.min_le_left batchSize pts.length
    · exact ih batch htail

/-- C10.  For every input point list and every positive batch size, `writeBatched`
writes consecutive batches of at most `batchSize` points whose in-order concatenation
is exactly the input, and returns a total equal to the input length. -/
theorem writeBatched_partitions (points : List ProbePoint) (batchSize : ℕ)
    (h : 0 < batchSize) :
    ((writeBatched points batchSize).1).flatten = points ∧
    (∀ batch ∈ (writeBatched points batchSize).1, batch.length ≤ batchSize) ∧
    (writeBatched points batchSize).2 = points.length := by
  refine ⟨batchesOf_flatten batchSize points h, batchesOf_length_le batchSize points, ?_⟩
  show ((batchesOf batchSize points).map List.length).sum = points.length
  rw [← List.length_flatten, batchesOf_flatten batchSize points h]

/-- Concrete probe point for witnesses. -/
def witnessPoint : ProbePoint :=
  { host := "TestApex"
    name := "Temp"
    probeType := "Temp"
    value := JSNumber.finite 78
    timestamp := none }

/-- Witness for C10: three points with batch size 2 are written as [2, 1] and the
partition facts hold at this concrete input. -/
theorem writeBatched_partitions_witness :
    ((writeBatched [witnessPoint, witnessPoint, witnessPoint] 2).1).flatten =
        [witnessPoint, witnessPoint, witnessPoint] ∧
    (∀ batch ∈ (writeBatched [witnessPoint, witnessPoint, witnessPoint] 2).1,
      batch.length ≤ 2) ∧
    (writeBatched [witnessPoint, witnessPoint, witnessPoint] 2).2 = 3 :=
  writeBatched_partitions [witnessPoint, witnessPoint, witnessPoint] 2 (by decide)

/-! ### Fold lemmas for the coverage scan -/

/-- Helper: the unique-date set after the fold is the initial set united with the date
parts of all useful records of the pass. -/
theorem foldl_uniqueDates (chunks : List (Option (List ApexRecord))) :
    ∀ st : ScanState,
      (chunks.foldl processCoverageChunk st).uniqueDatesWithData =
        st.uniqueDatesWithData ∪
          ((flatUseful chunks).map fun record => extractDatePart record.date).toFinset := by
  induction chunks with
  | nil =>
    intro st
    simp [flatUseful, flatRecords]
  | cons chunk rest ih =>
    intro st
    cases chunk with
    | none =>
      simpa [flatUseful, flatRecords] using ih st
    | some records =>
      have hflat : flatUseful (some records :: rest) =
          records.filter hasUsefulData ++ flatUseful rest := by
        simp [flatUseful, flatRecords]
      rw [List.foldl_cons, ih]
      by_cases hempty : (records.filter hasUsefulData).isEmpty
      · have hnil : records.filter hasUsefulData = [] := List.isEmpty_iff.mp hempty
        simp [processCoverageChunk, hempty, hflat, hnil]
      · simp [processCoverageChunk, hempty, hflat, List.toFinset_append, Finset.union_assoc]

/-- Helper: the useful-record counter after the fold is the initial counter plus the
number of useful records of the pass. -/
theorem foldl_usefulCount (chunks : List (Option (List ApexRecord))) :
    ∀ st : ScanState,
      (chunks.foldl processCoverageChunk st).usefulRecordCount =
        st.usefulRecordCount + (flatUseful chunks).length := by
  induction chunks with
  | nil =>
    intro st
    simp [flatUseful, flatRecords]
  | cons chunk rest ih =>
    intro st
    cases chunk with
    | none =>
      simpa [flatUseful, flatRecords] using ih st
    | some records =>
      have hflat : flatUseful (some records :: rest) =
          records.filter hasUsefulData ++ flatUseful rest := by
        simp [flatUseful, flatRecords]
      rw [List.foldl_cons, ih]
      by_cases hempty : (records.filter hasUsefulData).isEmpty
      · have hnil : records.filter hasUsefulData = [] := List.isEmpty_iff.mp hempty
        simp [processCoverageChunk, hempty, hflat, hnil]
      · simp [processCoverageChunk, hempty, hflat]
        omega

/-- Helper: the total-record counter after the fold is the initial counter plus the
total length of all successfully fetched chunks. -/
theorem foldl_totalCount (chunks : List (Option (List ApexRecord))) :
    ∀ st : ScanState,
      (chunks.foldl processCoverageChunk st).totalRecordsFetched =
        st.totalRecordsFetched + (flatRecords chunks).length := by
  induction chunks with
  | nil =>
    intro st
    simp [flatRecords]
  | cons chunk rest ih =>
    intro st
    cases chunk with
    | none =>
      simpa [flatRecords] using ih st
    | some records =>
      have hflat : (flatRecords (some records :: rest)).length =
          records.length + (flatRecords rest).length := by
        simp [flatRecords]
      rw [List.foldl_cons, ih, hflat]
      by_cases hempty : (records.filter hasUsefulData).isEmpty
      · simp [processCoverageChunk, hempty]
        omega
      · simp [processCoverageChunk, hempty]
        omega

/-- Helper: the oldest-useful-date register after the fold keeps the initial value if
set, and otherwise records the date of the first useful record of the pass. -/
theorem foldl_oldestDate (chunks : List (Option (List ApexRecord))) :
    ∀ st : ScanState,
      (chunks.foldl processCoverageChunk st).oldestUsefulDate =
        (st.oldestUsefulDate.orElse fun _ =>
          ((flatUseful chunks).head?).map ApexRecord.date) := by
  induction chunks with
  | nil =>
    intro st
    cases h : st.oldestUsefulDate <;> simp [flatUseful, flatRecords, h, Option.orElse]
  | cons chunk rest ih =>
    intro st
    cases chunk with
    | none =>
      have : flatUseful (none :: rest) = flatUseful rest := by
        simp [flatUseful, flatRecords]
      rw [List.foldl_cons]
      show (rest.foldl processCoverageChunk st).oldestUsefulDate = _
      rw [ih st, this]
    | some records =>
      have hflat : flatUseful (some records :: rest) =
          records.filter hasUsefulData ++ flatUseful rest := by
        simp [flatUseful, flatRecords]
      rw [List.foldl_cons, ih]
      by_cases hempty : (records.filter hasUsefulData).isEmpty
      · have hnil : records.filter hasUsefulData = [] := List.isEmpty_iff.mp hempty
        simp [processCoverageChunk, hempty, hflat, hnil]
      · rcases hu : records.filter hasUsefulData with _ | ⟨u, us⟩
        · rw [hu] at hempty
          simp at hempty
        · rw [hu] at hflat
          rw [hflat]
          cases hold : st.oldestUsefulDate <;>
            simp [processCoverageChunk, hempty, hu, hold, Option.orElse]

/-- Helper: the newest-useful-date register after the fold records the date of the last
useful record of the pass, falling back to the initial value if the pass has none. -/
theorem foldl_newestDate (chunks : List (Option (List ApexRecord))) :
    ∀ st : ScanState,
      (chunks.foldl processCoverageChunk st).newestUsefulDate =
        ((((flatUseful chunks).getLast?).map ApexRecord.date).orElse fun _ =>
          st.newestUsefulDate) := by
  induction chunks with
  | nil =>
    intro st
    simp [flatUseful, flatRecords, Option.orElse]
  | cons chunk rest ih =>
    intro st
    cases chunk with
    | none =>
      have : flatUseful (none :: rest) = flatUseful rest := by
        simp [flatUseful, flatRecords]
      rw [List.foldl_cons]
      show (rest.foldl processCoverageChunk st).newestUsefulDate = _
      rw [ih st, this]
    | some records =>
      have hflat : flatUseful (some records :: rest) =
          records.filter hasUsefulData ++ flatUseful rest := by
        simp [flatUseful, flatRecords]
      rw [List.foldl_cons, ih]
      by_cases hempty : (records.filter hasUsefulData).isEmpty
      · have hnil : records.filter hasUsefulData = [] := List.isEmpty_iff.mp hempty
        simp [processCoverageChunk, hempty, hflat, hnil]
      · rcases hu : records.filter hasUsefulData with _ | ⟨u, us⟩
        · rw [hu] at hempty
          simp at hempty
        · rw [hu] at hflat
          rw [hflat, List.getLast?_append]
          rcases hrest : (flatUseful rest).getLast? with _ | b
          · have hlast : ((u :: us).getLast?).isSome := by
              simp [List.getLast?_isSome]
            rcases hl : (u :: us).getLast? with _ | v
            · rw [hl] at hlast
              exact absurd hlast (by simp)
            · simp [processCoverageChunk, hempty, hu, hl, Option.orElse, Option.or]
          · simp [processCoverageChunk, hempty, hu, hrest, Option.orElse, Option.or]

/-! ### C9: counting invariants of the coverage scan -/

/-- C9.  Every coverage result satisfies `daysWithData ≤ usefulRecords ≤ totalRecords`
and reports exactly the configured 60-day window, and a chunk whose fetch failed
contributes nothing to any counter of the scan state. -/
theorem coverage_counting_invariants (chunks : List (Option (List ApexRecord))) :
    (getDataCoverage chunks).daysWithData ≤ (getDataCoverage chunks).usefulRecords ∧
    (getDataCoverage chunks).usefulRecords ≤ (getDataCoverage chunks).totalRecords ∧
    (getDataCoverage chunks).totalDays = totalDaysToCheck ∧
    (∀ st : ScanState, processCoverageChunk st none = st) := by
  have hdates := foldl_uniqueDates chunks initialScanState
  have huseful := foldl_usefulCount chunks initialScanState
  have htotal := foldl_totalCount chunks initialScanState
  have hflatlen : (flatUseful chunks).length ≤ (flatRecords chunks).length :=
    (List.filter_sublist (flatRecords chunks)).length_le
  have hcardle :
      (scanPass chunks).uniqueDatesWithData.card ≤
        (scanPass chunks).usefulRecordCount := by
    unfold scanPass
    rw [hdates, huseful]
    simp only [initialScanState, Finset.empty_union, Nat.zero_add]
    calc (((flatUseful chunks).map fun record => extractDatePart record.date).toFinset).card
        ≤ ((flatUseful chunks).map fun record => extractDatePart record.date).length :=
          List.toFinset_card_le _
      _ = (flatUseful chunks).length := List.length_map _ _
  have hcountle :
      (scanPass chunks).usefulRecordCount ≤
        (scanPass chunks).totalRecordsFetched := by
    unfold scanPass
    rw [huseful, htotal]
    simp only [initialScanState, Nat.zero_add]
    exact hflatlen
  unfold getDataCoverage
  by_cases hzero : (scanPass chunks).usefulRecordCount = 0
  · rw [if_pos hzero]
    exact ⟨Nat.le_refl 0, Nat.zero_le _, rfl, fun st => rfl⟩
  · rw [if_neg hzero]
    exact ⟨hcardle, hcountle, rfl, fun st => rfl⟩

/-! ### C2: coverage-percentage invariants -/

/-- Sixty-one records carrying sixty-one distinct calendar-date strings, all useful.
The controller is free to return records dated outside the requested window, so a
single fetched chunk can carry more distinct dates than the 60-day scan window. -/
def sixtyOneRecords : List ApexRecord :=
  (List.range 61).map fun i =>
    { date := List.asString [Char.ofNat (48 + i / 10), Char.ofNat (48 + i % 10)]
      probes := [{ name := "Temp", type := "Temp", value := JSNumber.finite 78 }] }

set_option maxRecDepth 8000 in
/-- C2 counterexample.  The claim asserts `coveragePercent ≤ 100` for every completed
scan, but `getDataCoverage` never caps `daysWithData` at the window size: a scan whose
useful records carry 61 distinct date substrings yields `daysWithData = 61` over a
60-day window and `coveragePercent = 101.67 > 100`. -/
theorem coveragePercent_can_exceed_100 :
    100 < (getDataCoverage [some sixtyOneRecords]).coveragePercent ∧
    (getDataCoverage [some sixtyOneRecords]).totalDays = 60 ∧
    (getDataCoverage [some sixtyOneRecords]).daysWithData = 61 := by
  have hcard : (scanPass [some sixtyOneRecords]).uniqueDatesWithData.card = 61 := by
    decide
  have hne : ¬(scanPass [some sixtyOneRecords]).usefulRecordCount = 0 := by decide
  have hraw : rawCoveragePercent 61 = 61 / 60 * 100 := by
    norm_num [rawCoveragePercent, totalDaysToCheck]
  have hfloor : jsRound (61 / 60 * 100 * 100) = 10167 := by
    unfold jsRound
    rw [Int.floor_eq_iff]
    norm_num
  unfold getDataCoverage
  rw [if_neg hne, hcard]
  refine ⟨?_, rfl, rfl⟩
  show (100 : ℚ) < (jsRound (rawCoveragePercent 61 * 100) : ℚ) / 100
  rw [hraw, hfloor]
  norm_num

/-- C2 as amended.  `coveragePercent` always equals
`round((daysWithData / totalDays) * 100, 2)` and is nonnegative; the upper bound 100
holds whenever `daysWithData` does not exceed the 60-day window (the code does not
enforce this against a source returning out-of-window dates — see the counterexample);
and a scan with no useful records reports zero coverage and empty date strings. -/
theorem coveragePercent_formula (chunks : List (Option (List ApexRecord))) :
    (getDataCoverage chunks).coveragePercent =
      (jsRound (((getDataCoverage chunks).daysWithData : ℚ)
        / ((getDataCoverage chunks).totalDays : ℚ) * 100 * 100) : ℚ) / 100 ∧
    0 ≤ (getDataCoverage chunks).coveragePercent ∧
    ((getDataCoverage chunks).daysWithData ≤ (getDataCoverage chunks).totalDays →
      (getDataCoverage chunks).coveragePercent ≤ 100) ∧
    ((getDataCoverage chunks).usefulRecords = 0 →
      (getDataCoverage chunks).coveragePercent = 0 ∧
      (getDataCoverage chunks).oldestUsefulRecordDate = "" ∧
      (getDataCoverage chunks).newestUsefulRecordDate = "") := by
  have hraw : ∀ d : ℕ, rawCoveragePercent d = (d : ℚ) / 60 * 100 := by
    intro d
    norm_num [rawCoveragePercent, totalDaysToCheck]
  have htd : ((totalDaysToCheck : ℕ) : ℚ) = 60 := by norm_num [totalDaysToCheck]
  unfold getDataCoverage
  by_cases hzero : (scanPass chunks).usefulRecordCount = 0
  · rw [if_pos hzero]
    refine ⟨?_, le_refl 0, fun _ => by norm_num, fun _ => ⟨rfl, rfl, rfl⟩⟩
    show (0 : ℚ) = (jsRound (((0 : ℕ) : ℚ) / ((totalDaysToCheck : ℕ) : ℚ) * 100 * 100) : ℚ) / 100
    rw [htd]
    norm_num [jsRound]
  · rw [if_neg hzero]
    set d := (scanPass chunks).uniqueDatesWithData.card with hd
    refine ⟨?_, ?_, ?_, fun habs => absurd habs hzero⟩
    · show (jsRound (rawCoveragePercent d * 100) : ℚ) / 100 =
        (jsRound ((d : ℚ) / ((totalDaysToCheck : ℕ) : ℚ) * 100 * 100) : ℚ) / 100
      rw [hraw, htd]
    · show (0 : ℚ) ≤ (jsRound (rawCoveragePercent d * 100) : ℚ) / 100
      rw [hraw]
      have hq : (0 : ℚ) ≤ (d : ℚ) / 60 * 100 * 100 := by positivity
      have hfl : (0 : ℤ) ≤ jsRound ((d : ℚ) / 60 * 100 * 100) := by
        unfold jsRound
        exact Int.floor_nonneg.mpr (by linarith)
      have hcast : (0 : ℚ) ≤ (jsRound ((d : ℚ) / 60 * 100 * 100) : ℚ) := by
        exact_mod_cast hfl
      linarith
    · intro hle
      show (jsRound (rawCoveragePercent d * 100) : ℚ) / 100 ≤ 100
      rw [hraw]
      have hdle : (d : ℚ) ≤ 60 := by
        have : (d : ℚ) ≤ ((totalDaysToCheck : ℕ) : ℚ) := by exact_mod_cast hle
        rwa [htd] at this
      have hq : (d : ℚ) / 60 * 100 * 100 ≤ 10000 := by
        calc (d : ℚ) / 60 * 100 * 100 ≤ (60 : ℚ) / 60 * 100 * 100 := by gcongr
          _ = 10000 := by norm_num
      have hfl : jsRound ((d : ℚ) / 60 * 100 * 100) ≤ 10000 := by
        unfold jsRound
        calc ⌊(d : ℚ) / 60 * 100 * 100 + 1 / 2⌋
            ≤ ⌊(10000 : ℚ) + 1 / 2⌋ := Int.floor_le_floor (by linarith)
          _ = 10000 := by
              rw [Int.floor_eq_iff]
              norm_num
      have hcast : (jsRound ((d : ℚ) / 60 * 100 * 100) : ℚ) ≤ 10000 := by
        exact_mod_cast hfl
      linarith

/-- Witness for the amended C2 at the empty scan: zero chunks give zero coverage with
empty date fields and the rounding identity holds. -/
theorem coveragePercent_formula_witness :
    (getDataCoverage []).coveragePercent =
      (jsRound (((getDataCoverage []).daysWithData : ℚ)
        / ((getDataCoverage []).totalDays : ℚ) * 100 * 100) : ℚ) / 100 ∧
    0 ≤ (getDataCoverage []).coveragePercent ∧
    ((getDataCoverage []).daysWithData ≤ (getDataCoverage []).totalDays →
      (getDataCoverage []).coveragePercent ≤ 100) ∧
    ((getDataCoverage []).usefulRecords = 0 →
      (getDataCoverage []).coveragePercent = 0 ∧
      (getDataCoverage []).oldestUsefulRecordDate = "" ∧
      (getDataCoverage []).newestUsefulRecordDate = "") :=
  coveragePercent_formula []

/-! ### C8: oldest and newest useful record dates -/

/-- A useful record dated 01/02/2026, listed before an earlier one in its chunk. -/
def outOfOrderRecordLate : ApexRecord :=
  { date := "01/02/2026 00:00:00"
    probes := [{ name := "Temp", type := "Temp", value := JSNumber.finite 78 }] }

/-- A useful record dated 01/01/2026, listed after a later one in its chunk. -/
def outOfOrderRecordEarly : ApexRecord :=
  { date := "01/01/2026 00:00:00"
    probes := [{ name := "Temp", type := "Temp", value := JSNumber.finite 78 }] }

/-- C8 counterexample.  The claim says the oldest/newest date fields hold the dates of
the oldest and newest useful records for any ordering of records inside a chunk, but
`getDataCoverage` takes the first and last useful records in chunk order without
comparing timestamps: a chunk listing the 01/02 record before the 01/01 record reports
the 01/02 date as oldest even though the 01/01 record is older. -/
theorem coverage_oldest_field_not_oldest_record :
    (getDataCoverage
        [some [outOfOrderRecordLate, outOfOrderRecordEarly]]).oldestUsefulRecordDate =
      outOfOrderRecordLate.date ∧
    outOfOrderRecordEarly ∈ flatUseful [some [outOfOrderRecordLate, outOfOrderRecordEarly]] ∧
    recordSortKey 0 outOfOrderRecordEarly < recordSortKey 0 outOfOrderRecordLate ∧
    outOfOrderRecordLate.date ≠ outOfOrderRecordEarly.date :=
  ⟨by decide, by decide, by decide, by decide⟩

/-- Helper: in a list that is pairwise nondecreasing for the parsed-time key, the head
is a minimum. -/
theorem sorted_head_min (o : ℤ) (l : List ApexRecord) (a : ApexRecord)
    (hsorted : l.Pairwise fun x y => recordSortKey o x ≤ recordSortKey o y)
    (hhead : l.head? = some a) :
    ∀ r ∈ l, recordSortKey o a ≤ recordSortKey o r := by
  cases l with
  | nil => cases hhead
  | cons x t =>
    cases Option.some.inj hhead
    intro r hr
    rcases List.mem_cons.mp hr with hx | ht
    · rw [hx]
    · exact List.rel_of_pairwise_cons hsorted ht

/-- Helper: in a list that is pairwise nondecreasing for the parsed-time key, the last
element is a maximum. -/
theorem sorted_getLast_max (o : ℤ) (l : List ApexRecord) (b : ApexRecord)
    (hsorted : l.Pairwise fun x y => recordSortKey o x ≤ recordSortKey o y)
    (hlast : l.getLast? = some b) :
    ∀ r ∈ l, recordSortKey o r ≤ recordSortKey o b := by
  induction l with
  | nil => cases hlast
  | cons x t ih =>
    cases t with
    | nil =>
      cases Option.some.inj hlast
      intro r hr
      rcases List.mem_cons.mp hr with hx | ht
      · rw [hx]
        simp [List.getLast_singleton]
      · cases ht
    | cons y t2 =>
      rw [List.getLast?_cons_cons] at hlast
      intro r hr
      rcases List.mem_cons.mp hr with hx | ht
      · rw [hx]
        exact List.rel_of_pairwise_cons hsorted (List.mem_of_getLast?_eq_some hlast)
      · exact ih (List.Pairwise.sublist (List.sublist_cons_self x (y :: t2)) hsorted) hlast
          r ht

/-- C8 as amended.  When the records of the pass, in visit order, are chronologically
nondecreasing for the parsed-time key (chunks oldest-to-newest and each chunk sorted
internally — the within-chunk ordering the source code relies on), the coverage result's
`oldestUsefulRecordDate` and `newestUsefulRecordDate` are the dates of useful records of
minimal and maximal parsed time respectively; without that ordering assumption the
fields are merely the first and last useful records in chunk order (see the
counterexample). -/
theorem coverage_extremes_of_sorted (chunks : List (Option (List ApexRecord))) (o : ℤ)
    (hne : flatUseful chunks ≠ [])
    (hsorted : (flatRecords chunks).Pairwise
      fun x y => recordSortKey o x ≤ recordSortKey o y) :
    ∃ a b, a ∈ flatUseful chunks ∧ b ∈ flatUseful chunks ∧
      (getDataCoverage chunks).oldestUsefulRecordDate = a.date ∧
      (getDataCoverage chunks).newestUsefulRecordDate = b.date ∧
      ∀ r ∈ flatUseful chunks,
        recordSortKey o a ≤ recordSortKey o r ∧ recordSortKey o r ≤ recordSortKey o b := by
  have husorted : (flatUseful chunks).Pairwise
      fun x y => recordSortKey o x ≤ recordSortKey o y :=
    List.Pairwise.sublist (List.filter_sublist (flatRecords chunks)) hsorted
  have hheadsome : ∃ a, (flatUseful chunks).head? = some a := by
    cases hu : flatUseful chunks with
    | nil => exact absurd hu hne
    | cons a t => exact ⟨a, rfl⟩
  rcases hheadsome with ⟨a, hhead⟩
  have hlast : (flatUseful chunks).getLast? =
      some ((flatUseful chunks).getLast hne) :=
    List.getLast?_eq_getLast _ hne
  set b := (flatUseful chunks).getLast hne with hb
  have hzero : ¬(scanPass chunks).usefulRecordCount = 0 := by
    unfold scanPass
    rw [foldl_usefulCount chunks initialScanState]
    simp only [initialScanState, Nat.zero_add]
    intro hlen
    exact hne (List.length_eq_zero.mp hlen)
  have holdest := foldl_oldestDate chunks initialScanState
  have hnewest := foldl_newestDate chunks initialScanState
  refine ⟨a, b, ?_, List.getLast_mem hne, ?_, ?_, ?_⟩
  · exact List.mem_of_mem_head? hhead
  · unfold getDataCoverage
    rw [if_neg hzero]
    show (scanPass chunks).oldestUsefulDate.getD "" = a.date
    unfold scanPass
    rw [holdest]
    simp [initialScanState, Option.orElse, hhead]
  · unfold getDataCoverage
    rw [if_neg hzero]
    show (scanPass chunks).newestUsefulDate.getD "" = b.date
    unfold scanPass
    rw [hnewest, hlast]
    simp [Option.orElse]
  · intro r hr
    exact ⟨sorted_head_min o _ a husorted hhead r hr,
      sorted_getLast_max o _ b husorted hlast r hr⟩

/-- Witness for the amended C8: on a chronologically ordered two-record chunk the
coverage result's date fields are the dates of the time-minimal and time-maximal
useful records. -/
theorem coverage_extremes_of_sorted_witness :
    ∃ a b,
      a ∈ flatUseful [some [outOfOrderRecordEarly, outOfOrderRecordLate]] ∧
      b ∈ flatUseful [some [outOfOrderRecordEarly, outOfOrderRecordLate]] ∧
      (getDataCoverage
        [some [outOfOrderRecordEarly, outOfOrderRecordLate]]).oldestUsefulRecordDate =
        a.date ∧
      (getDataCoverage
        [some [outOfOrderRecordEarly, outOfOrderRecordLate]]).newestUsefulRecordDate =
        b.date ∧
      ∀ r ∈ flatUseful [some [outOfOrderRecordEarly, outOfOrderRecordLate]],
        recordSortKey 0 a ≤ recordSortKey 0 r ∧ recordSortKey 0 r ≤ recordSortKey 0 b :=
  coverage_extremes_of_sorted [some [outOfOrderRecordEarly, outOfOrderRecordLate]] 0
    (by decide) (by decide)

/-! ### C6: the reconciliation routine never rejects -/

/-- C6.  For every outcome of the pass's I/O steps the top-level routine resolves
normally: some outcome is always returned with `.ok`; an empty record set from the
source yields the no-records report; and any error escaping the body is converted —
file-limit errors into the remediation-guidance report, all others into the
logged-and-swallowed report — instead of propagating. -/
theorem reconciler_never_rejects (env : FreshnessEnv) :
    (∃ outcome, checkDatabaseFreshness env = .ok outcome) ∧
    (∀ datalog, env.datalogResult = .ok datalog → datalog.records = [] →
      checkDatabaseFreshness env = .ok .noRecords) ∧
    (∀ e, checkFreshnessBody env = .error e →
      checkDatabaseFreshness env =
        .ok (if isFileLimitError e then .fileLimitGuidance else .errorLogged e)) := by
  refine ⟨?_, ?_, ?_⟩
  · rcases hbody : checkFreshnessBody env with e | outcome
    · refine ⟨if isFileLimitError e then .fileLimitGuidance else .errorLogged e, ?_⟩
      unfold checkDatabaseFreshness
      rw [hbody]
      by_cases hfl : isFileLimitError e <;> simp [hfl]
    · refine ⟨outcome, ?_⟩
      unfold checkDatabaseFreshness
      rw [hbody]
  · intro datalog hdl hrecs
    have hbody : checkFreshnessBody env = .ok .noRecords := by
      unfold checkFreshnessBody
      simp only [hdl, hrecs, List.getLast?_nil]
    unfold checkDatabaseFreshness
    rw [hbody]
  · intro e hbody
    unfold checkDatabaseFreshness
    rw [hbody]
    by_cases hfl : isFileLimitError e <;> simp [hfl]

/-- Concrete pass environment for the C6 witness: the source answers with an empty
datalog, every store query reports no data, force-full-sync off. -/
def witnessEnv : FreshnessEnv :=
  { datalogResult := .ok
      { software := "5.12_2B25"
        hardware := "1.0"
        hostname := "TestApex"
        serial := "AC5:12345"
        timezone := -8
        records := [] }
    preCheck := .ok none
    coverageChunks := []
    postCheck := .ok none
    oldestCheck := .ok none
    forceFullSync := false
    localOffsetMinutes := 0 }

/-- Witness for C6 at the concrete environment. -/
theorem reconciler_never_rejects_witness :
    (∃ outcome, checkDatabaseFreshness witnessEnv = .ok outcome) ∧
    (∀ datalog, witnessEnv.datalogResult = .ok datalog → datalog.records = [] →
      checkDatabaseFreshness witnessEnv = .ok .noRecords) ∧
    (∀ e, checkFreshnessBody witnessEnv = .error e →
      checkDatabaseFreshness witnessEnv =
        .ok (if isFileLimitError e then .fileLimitGuidance else .errorLogged e)) :=
  reconciler_never_rejects witnessEnv

/-! ### C5: chunked query helper -/

/-- Reference iteration of the helper over an explicit list of chunk ranges: stop at
the first chunk with rows, skip empty and file-limit chunks, propagate other errors. -/
def scanRanges (store : ChunkStore) : List (ℕ × ℕ) → Except String (Option InfluxRow)
  | [] => .ok none
  | range :: rest =>
    match store range.1 range.2 with
    | .ok (row :: _) => .ok (some row)
    | .ok [] => scanRanges store rest
    | .error e => if isFileLimitError e then scanRanges store rest else .error e

/-- Helper: a skipped chunk in front preserves the characterization. -/
theorem chunkedSearchSpec_cons_skip (store : ChunkStore) (range : ℕ × ℕ)
    (rest : List (ℕ × ℕ)) (result : Except String (Option InfluxRow))
    (hskip : chunkSkipped store range)
    (ih : chunkedSearchSpec store rest result) :
    chunkedSearchSpec store (range :: rest) result := by
  obtain ⟨ih1, ih2, ih3⟩ := ih
  refine ⟨?_, ?_, ?_⟩
  · intro row h
    rcases ih1 row h with ⟨pre, rg, rws, post, heq, hpre, hstore⟩
    refine ⟨range :: pre, rg, rws, post, by rw [heq, List.cons_append], ?_, hstore⟩
    intro r hr
    rcases List.mem_cons.mp hr with hrg | hmem
    · rw [hrg]; exact hskip
    · exact hpre r hmem
  · constructor
    · intro h r hr
      rcases List.mem_cons.mp hr with hrg | hmem
      · rw [hrg]; exact hskip
      · exact (ih2.mp h) r hmem
    · intro hall
      exact ih2.mpr fun r hr => hall r (List.mem_cons_of_mem range hr)
  · intro e h
    rcases ih3 e h with ⟨hfl, pre, rg, post, heq, hpre, hstore⟩
    refine ⟨hfl, range :: pre, rg, post, by rw [heq, List.cons_append], ?_, hstore⟩
    intro r hr
    rcases List.mem_cons.mp hr with hrg | hmem
    · rw [hrg]; exact hskip
    · exact hpre r hmem

/-- Helper: the reference iteration satisfies the characterization. -/
theorem scanRanges_spec (store : ChunkStore) (ranges : List (ℕ × ℕ)) :
    chunkedSearchSpec store ranges (scanRanges store ranges) := by
  induction ranges with
  | nil =>
    refine ⟨?_, ?_, ?_⟩
    · intro row h
      rw [scanRanges] at h
      exact Option.noConfusion (Except.ok.inj h)
    · rw [scanRanges]
      exact ⟨fun _ r hr => absurd hr (List.not_mem_nil r), fun _ => rfl⟩
    · intro e h
      rw [scanRanges] at h
      cases h
  | cons range rest ih =>
    rw [scanRanges]
    cases hst : store range.1 range.2 with
    | ok rows =>
      cases rows with
      | nil =>
        show chunkedSearchSpec store (range :: rest) (scanRanges store rest)
        exact chunkedSearchSpec_cons_skip store range rest _ (Or.inl hst) ih
      | cons row rows2 =>
        show chunkedSearchSpec store (range :: rest) (.ok (some row))
        refine ⟨?_, ?_, ?_⟩
        · intro row2 h
          have hrow : row = row2 := Option.some.inj (Except.ok.inj h)
          exact ⟨[], range, rows2, rest, rfl,
            fun r hr => absurd hr (List.not_mem_nil r), by rw [hst, hrow]⟩
        · constructor
          · intro h
            exact Option.noConfusion (Except.ok.inj h)
          · intro hall
            rcases hall range (List.mem_cons_self range rest) with hempty | ⟨e, herr, _⟩
            · rw [hst] at hempty
              exact List.noConfusion (Except.ok.inj hempty)
            · rw [hst] at herr
              cases herr
        · intro e h
          cases h
    | error e =>
      show chunkedSearchSpec store (range :: rest)
        (if isFileLimitError e then scanRanges store rest else .error e)
      by_cases hfl : isFileLimitError e
      · rw [if_pos hfl]
        exact chunkedSearchSpec_cons_skip store range rest _ (Or.inr ⟨e, hst, hfl⟩) ih
      · rw [if_neg hfl]
        refine ⟨?_, ?_, ?_⟩
        · intro row h
          cases h
        · constructor
          · intro h
            cases h
          · intro hall
            rcases hall range (List.mem_cons_self range rest) with hempty | ⟨e2, herr, hfl2⟩
            · rw [hst] at hempty
              cases hempty
            · rw [hst] at herr
              cases Except.error.inj herr
              exact absurd hfl2 (by simpa using hfl)
        · intro e2 h
          cases Except.error.inj h
          refine ⟨by simpa using hfl, [], range, rest, rfl,
            fun r hr => absurd hr (List.not_mem_nil r), hst⟩

/-- Helper: the newest-search loop equals the reference iteration over its ranges. -/
theorem queryNewestGo_eq_scan (store : ChunkStore) (chunkDays maxLookback : ℕ) :
    ∀ startDays, queryNewestGo store chunkDays maxLookback startDays =
      scanRanges store (newestChunkRangesFrom chunkDays maxLookback startDays) := by
  have main : ∀ n startDays, maxLookback - startDays ≤ n →
      queryNewestGo store chunkDays maxLookback startDays =
        scanRanges store (newestChunkRangesFrom chunkDays maxLookback startDays) := by
    intro n
    induction n with
    | zero =>
      intro s hs
      have hcond : ¬(s < maxLookback ∧ 0 < chunkDays) := by omega
      rw [queryNewestGo, newestChunkRangesFrom, dif_neg hcond, dif_neg hcond, scanRanges]
    | succ n ih =>
      intro s hs
      rw [queryNewestGo, newestChunkRangesFrom]
      by_cases hcond : s < maxLookback ∧ 0 < chunkDays
      · rw [dif_pos hcond, dif_pos hcond]
        have hexp : scanRanges store ((s, min (s + chunkDays) maxLookback) ::
            newestChunkRangesFrom chunkDays maxLookback (s + chunkDays)) =
            match store s (min (s + chunkDays) maxLookback) with
            | .ok (row :: _) => .ok (some row)
            | .ok [] =>
              scanRanges store (newestChunkRangesFrom chunkDays maxLookback (s + chunkDays))
            | .error e =>
              if isFileLimitError e then
                scanRanges store (newestChunkRangesFrom chunkDays maxLookback (s + chunkDays))
              else
                .error e := rfl
        rw [hexp]
        cases hst : store s (min (s + chunkDays) maxLookback) with
        | ok rows =>
          cases rows with
          | nil =>
            show queryNewestGo store chunkDays maxLookback (s + chunkDays) =
              scanRanges store (newestChunkRangesFrom chunkDays maxLookback (s + chunkDays))
            exact ih (s + chunkDays) (by omega)
          | cons row rows2 => rfl
        | error e =>
          show (if isFileLimitError e then
              queryNewestGo store chunkDays maxLookback (s + chunkDays)
            else (.error e : Except String (Option InfluxRow))) =
            (if isFileLimitError e then
              scanRanges store (newestChunkRangesFrom chunkDays maxLookback (s + chunkDays))
            else .error e)
          by_cases hfl : isFileLimitError e
          · rw [if_pos hfl, if_pos hfl]
            exact ih (s + chunkDays) (by omega)
          · rw [if_neg hfl, if_neg hfl]
      · rw [dif_neg hcond, dif_neg hcond, scanRanges]
  exact fun s => main (maxLookback - s) s (Nat.le_refl _)

/-- Helper: the oldest-search loop equals the reference iteration over its ranges. -/
theorem queryOldestGo_eq_scan (store : ChunkStore) (chunkDays : ℕ) :
    ∀ endDays, queryOldestGo store chunkDays endDays =
      scanRanges store (oldestChunkRangesFrom chunkDays endDays) := by
  have main : ∀ n endDays, endDays ≤ n →
      queryOldestGo store chunkDays endDays =
        scanRanges store (oldestChunkRangesFrom chunkDays endDays) := by
    intro n
    induction n with
    | zero =>
      intro e he
      have hcond : ¬(0 < e ∧ 0 < chunkDays) := by omega
      rw [queryOldestGo, oldestChunkRangesFrom, dif_neg hcond, dif_neg hcond, scanRanges]
    | succ n ih =>
      intro e he
      rw [queryOldestGo, oldestChunkRangesFrom]
      by_cases hcond : 0 < e ∧ 0 < chunkDays
      · rw [dif_pos hcond, dif_pos hcond]
        have hexp : scanRanges store ((e - chunkDays, e) ::
            oldestChunkRangesFrom chunkDays (e - chunkDays)) =
            match store (e - chunkDays) e with
            | .ok (row :: _) => .ok (some row)
            | .ok [] => scanRanges store (oldestChunkRangesFrom chunkDays (e - chunkDays))
            | .error err =>
              if isFileLimitError err then
                scanRanges store (oldestChunkRangesFrom chunkDays (e - chunkDays))
              else
                .error err := rfl
        rw [hexp]
        cases hst : store (e - chunkDays) e with
        | ok rows =>
          cases rows with
          | nil =>
            show queryOldestGo store chunkDays (e - chunkDays) =
              scanRanges store (oldestChunkRangesFrom chunkDays (e - chunkDays))
            exact ih (e - chunkDays) (by omega)
          | cons row rows2 => rfl
        | error err =>
          show (if isFileLimitError err then
              queryOldestGo store chunkDays (e - chunkDays)
            else (.error err : Except String (Option InfluxRow))) =
            (if isFileLimitError err then
              scanRanges store (oldestChunkRangesFrom chunkDays (e - chunkDays))
            else .error err)
          by_cases hfl : isFileLimitError err
          · rw [if_pos hfl, if_pos hfl]
            exact ih (e - chunkDays) (by omega)
          · rw [if_neg hfl, if_neg hfl]
      · rw [dif_neg hcond, dif_neg hcond, scanRanges]
  exact fun e => main e e (Nat.le_refl _)

/-- C5.  For every store behaviour and positive chunk size, both chunked searches
return the head row of the first chunk, in iteration order, whose query yielded rows,
skipping (with a logged warning) every earlier chunk that was empty or failed with the
store's file-limit signature; an error outside that signature propagates as the
search's result; and when every chunk in the lookback window is empty or scan-limited
the search returns the no-data result rather than an error. -/
theorem chunked_query_helper_spec (store : ChunkStore) (chunkDays maxLookback : ℕ)
    (hpos : 0 < chunkDays) :
    chunkedSearchSpec store (newestChunkRanges chunkDays maxLookback)
      (queryNewestInChunks store chunkDays maxLookback) ∧
    chunkedSearchSpec store (oldestChunkRanges chunkDays maxLookback)
      (queryOldestInChunks store chunkDays maxLookback) := by
  constructor
  · unfold queryNewestInChunks newestChunkRanges
    rw [queryNewestGo_eq_scan]
    exact scanRanges_spec store _
  · unfold queryOldestInChunks oldestChunkRanges
    rw [queryOldestGo_eq_scan]
    exact scanRanges_spec store _

/-- Concrete store for the C5 witness: the most recent chunk is scan-limited, the next
chunk is empty, the third holds a row. -/
def witnessStore : ChunkStore := fun startDays _endDays =>
  if startDays = 0 then
    .error "Query would scan 900 Parquet files; exceeding the file limit"
  else if startDays = 2 then
    .ok [{ time := "2026-01-15T12:00:00Z" }]
  else
    .ok []

/-- Witness for C5 with chunk size 1 over a 3-day lookback. -/
theorem chunked_query_helper_spec_witness :
    chunkedSearchSpec witnessStore (newestChunkRanges 1 3)
      (queryNewestInChunks witnessStore 1 3) ∧
    chunkedSearchSpec witnessStore (oldestChunkRanges 1 3)
      (queryOldestInChunks witnessStore 1 3) :=
  chunked_query_helper_spec witnessStore 1 3 (by decide)

/-! ### C7: chronological write order in the reconciler's chunk sink -/

/-- The sink's record pipeline (src/index.ts lines 216-238): filter the chunk against
the cutoff, then sort the survivors ascending by parsed timestamp. -/
def sinkSortedRecords (forceFullSync : Bool) (newestDbTimeBefore : Option ℤ)
    (localOffsetMinutes : ℤ) (records : List ApexRecord) : List ApexRecord :=
  sortRecordsByDate localOffsetMinutes
    (recordsToProcess forceFullSync newestDbTimeBefore localOffsetMinutes records)

/-- The sink's point list (src/index.ts line 241): the filtered-and-sorted records
mapped to probe points, in record order. -/
def sinkPoints (forceFullSync : Bool) (newestDbTimeBefore : Option ℤ)
    (localOffsetMinutes : ℤ) (hostname : String) (timezoneOffset : ℚ)
    (records : List ApexRecord) : List ProbePoint :=
  mapAllRecordsToPoints hostname timezoneOffset localOffsetMinutes
    (sinkSortedRecords forceFullSync newestDbTimeBefore localOffsetMinutes records)

/-- Helper: the flat start index of record `i + 1` is the start of record `i` plus the
number of points record `i` produces. -/
theorem pointsFlatStart_succ (hostname : String) (tz : ℚ) (o : ℤ)
    (records : List ApexRecord) (i : ℕ) (h : i < records.length) :
    pointsFlatStart hostname tz o records (i + 1) =
      pointsFlatStart hostname tz o records i +
        (mapRecordToPoints hostname tz o (records.get ⟨i, h⟩)).length := by
  unfold pointsFlatStart
  rw [List.take_succ, List.getElem?_eq_getElem h]
  simp only [List.map_append, List.sum_append, Option.toList_some, List.map_cons,
    List.map_nil, List.sum_cons, List.sum_nil, List.get_eq_getElem]
  omega

/-- Helper: the flat start index is monotone in the record position. -/
theorem pointsFlatStart_mono (hostname : String) (tz : ℚ) (o : ℤ)
    (records : List ApexRecord) {i j : ℕ} (hij : i ≤ j) :
    pointsFlatStart hostname tz o records i ≤ pointsFlatStart hostname tz o records j := by
  unfold pointsFlatStart
  have htake : records.take i = (records.take j).take i := by
    rw [List.take_take, Nat.min_eq_left hij]
  rw [htake]
  exact List.Sublist.sum_le_sum
    (List.Sublist.map _ (List.take_sublist i (records.take j)))
    (fun a _ => Nat.zero_le a)

/-- Helper: in the flattened point list, the segment starting at record `i`'s flat
start index of record `i`'s point count is exactly record `i`'s point list. -/
theorem flatMap_segment (f : ApexRecord → List ProbePoint) :
    ∀ (records : List ApexRecord) (i : ℕ) (h : i < records.length),
      ((records.flatMap f).drop
          (((records.take i).map fun r => (f r).length).sum)).take
          (f (records.get ⟨i, h⟩)).length
        = f (records.get ⟨i, h⟩) := by
  intro records
  induction records with
  | nil =>
    intro i h
    exact absurd h (by simp)
  | cons a t ih =>
    intro i h
    cases i with
    | zero =>
      simp only [List.take_zero, List.map_nil, List.sum_nil, List.drop_zero,
        List.flatMap_cons, List.get]
      exact List.take_left _ _
    | succ n =>
      have hn : n < t.length := by simpa using h
      simp only [List.take_succ_cons, List.map_cons, List.sum_cons, List.flatMap_cons,
        List.get]
      rw [← List.drop_drop, List.drop_left]
      exact ih n hn

/-- Helper: the sink's sort produces a list pairwise nondecreasing in the parsed-time
key. -/
theorem sinkSortedRecords_pairwise (forceFullSync : Bool)
    (newestDbTimeBefore : Option ℤ) (o : ℤ) (records : List ApexRecord) :
    (sinkSortedRecords forceFullSync newestDbTimeBefore o records).Pairwise
      fun a b => recordSortKey o a ≤ recordSortKey o b := by
  unfold sinkSortedRecords sortRecordsByDate
  have hpw := @List.sorted_mergeSort ApexRecord
    (fun a b : ApexRecord => decide (recordSortKey o a ≤ recordSortKey o b))
    (fun a b c hab hbc => by
      simp only [decide_eq_true_eq] at hab hbc ⊢
      exact le_trans hab hbc)
    (fun a b => by
      simp only [Bool.or_eq_true, decide_eq_true_eq]
      exact le_total (recordSortKey o a) (recordSortKey o b))
    (recordsToProcess forceFullSync newestDbTimeBefore o records)
  exact hpw.imp fun hab => by simpa using hab

/-- C7.  In the reconciler's chunk sink the surviving records are sorted ascending by
parsed timestamp before mapping; the flattened points of record `i` occupy exactly the
contiguous segment of the point list starting at its flat start index; and for records
`A` (position `i`) and `B` (position `j`) of the sorted chunk with `A`'s parsed
timestamp strictly earlier than `B`'s, every flat point index `p` of `A` and `q` of `B`
satisfy `p / 500 ≤ q / 500`, i.e. `A`'s points are written in the same or an earlier
batch of the consecutive 500-point batches than `B`'s. -/
theorem chunk_sink_chronological_batches (forceFullSync : Bool)
    (newestDbTimeBefore : Option ℤ) (o : ℤ) (hostname : String) (tz : ℚ)
    (chunkRecords : List ApexRecord) (i j p q : ℕ)
    (hi : i < (sinkSortedRecords forceFullSync newestDbTimeBefore o chunkRecords).length)
    (hj : j < (sinkSortedRecords forceFullSync newestDbTimeBefore o chunkRecords).length)
    (ta tb : ℤ)
    (hta : parseApexDateIndex o
      ((sinkSortedRecords forceFullSync newestDbTimeBefore o chunkRecords).get
        ⟨i, hi⟩).date = some ta)
    (htb : parseApexDateIndex o
      ((sinkSortedRecords forceFullSync newestDbTimeBefore o chunkRecords).get
        ⟨j, hj⟩).date = some tb)
    (htab : ta < tb)
    (hp : pointsFlatStart hostname tz o
        (sinkSortedRecords forceFullSync newestDbTimeBefore o chunkRecords) i ≤ p ∧
      p < pointsFlatStart hostname tz o
          (sinkSortedRecords forceFullSync newestDbTimeBefore o chunkRecords) i +
        (mapRecordToPoints hostname tz o
          ((sinkSortedRecords forceFullSync newestDbTimeBefore o chunkRecords).get
            ⟨i, hi⟩)).length)
    (hq : pointsFlatStart hostname tz o
        (sinkSortedRecords forceFullSync newestDbTimeBefore o chunkRecords) j ≤ q ∧
      q < pointsFlatStart hostname tz o
          (sinkSortedRecords forceFullSync newestDbTimeBefore o chunkRecords) j +
        (mapRecordToPoints hostname tz o
          ((sinkSortedRecords forceFullSync newestDbTimeBefore o chunkRecords).get
            ⟨j, hj⟩)).length) :
    (sinkSortedRecords forceFullSync newestDbTimeBefore o chunkRecords).Pairwise
      (fun a b => recordSortKey o a ≤ recordSortKey o b) ∧
    ((sinkPoints forceFullSync newestDbTimeBefore o hostname tz chunkRecords).drop
        (pointsFlatStart hostname tz o
          (sinkSortedRecords forceFullSync newestDbTimeBefore o chunkRecords) i)).take
        (mapRecordToPoints hostname tz o
          ((sinkSortedRecords forceFullSync newestDbTimeBefore o chunkRecords).get
            ⟨i, hi⟩)).length =
      mapRecordToPoints hostname tz o
        ((sinkSortedRecords forceFullSync newestDbTimeBefore o chunkRecords).get
          ⟨i, hi⟩) ∧
    p / writeBatchSize ≤ q / writeBatchSize := by
  have hpw := sinkSortedRecords_pairwise forceFullSync newestDbTimeBefore o chunkRecords
  refine ⟨hpw, ?_, ?_⟩
  · exact flatMap_segment (mapRecordToPoints hostname tz o)
      (sinkSortedRecords forceFullSync newestDbTimeBefore o chunkRecords) i hi
  · have hkeyi : recordSortKey o
        ((sinkSortedRecords forceFullSync newestDbTimeBefore o chunkRecords).get
          ⟨i, hi⟩) = ta := by
      unfold recordSortKey
      rw [hta]
      rfl
    have hkeyj : recordSortKey o
        ((sinkSortedRecords forceFullSync newestDbTimeBefore o chunkRecords).get
          ⟨j, hj⟩) = tb := by
      unfold recordSortKey
      rw [htb]
      rfl
    have hij : i < j := by
      rcases Nat.lt_trichotomy i j with hlt | heq | hgt
      · exact hlt
      · exfalso
        subst heq
        rw [hkeyi] at hkeyj
        omega
      · exfalso
        have := (List.pairwise_iff_get.mp hpw) ⟨j, hj⟩ ⟨i, hi⟩ hgt
        rw [hkeyi, hkeyj] at this
        omega
    have hstep : pointsFlatStart hostname tz o
        (sinkSortedRecords forceFullSync newestDbTimeBefore o chunkRecords) (i + 1) ≤
        pointsFlatStart hostname tz o
          (sinkSortedRecords forceFullSync newestDbTimeBefore o chunkRecords) j :=
      pointsFlatStart_mono hostname tz o _ hij
    rw [pointsFlatStart_succ hostname tz o _ i hi] at hstep
    have hpq : p ≤ q := by omega
    exact Nat.div_le_div_right hpq

unseal List.mergeSort List.merge in
/-- Witness for C7: a two-record chunk arriving out of order, no cutoff, local offset
0; after filtering and sorting, the earlier record sits at position 0 and the later at
position 1, their single points at flat indices 0 and 1, and batch order is respected. -/
theorem chunk_sink_chronological_batches_witness :
    (sinkSortedRecords false none 0
        [outOfOrderRecordLate, outOfOrderRecordEarly]).Pairwise
      (fun a b => recordSortKey 0 a ≤ recordSortKey 0 b) ∧
    ((sinkPoints false none 0 "TestApex" (-8)
        [outOfOrderRecordLate, outOfOrderRecordEarly]).drop
        (pointsFlatStart "TestApex" (-8) 0
          (sinkSortedRecords false none 0
            [outOfOrderRecordLate, outOfOrderRecordEarly]) 0)).take
        (mapRecordToPoints "TestApex" (-8) 0
          ((sinkSortedRecords false none 0
            [outOfOrderRecordLate, outOfOrderRecordEarly]).get
              ⟨0, by decide⟩)).length =
      mapRecordToPoints "TestApex" (-8) 0
        ((sinkSortedRecords false none 0
          [outOfOrderRecordLate, outOfOrderRecordEarly]).get ⟨0, by decide⟩) ∧
    0 / writeBatchSize ≤ 1 / writeBatchSize :=
  chunk_sink_chronological_batches false none 0 "TestApex" (-8)
    [outOfOrderRecordLate, outOfOrderRecordEarly] 0 1 0 1
    (by decide) (by decide) 1767225600000 1767312000000
    (by decide) (by decide) (by decide) (by decide) (by decide)

end AiDiva
